import Mathlib

/-!
Verification of the sensum message-dispatch core against its specification.

The definitions below are shallow embeddings of the TypeScript sources:
JavaScript `Map` / `@discordjs/collection` objects become association lists,
`Date.now()` becomes an explicit `now : Nat` parameter (milliseconds),
thrown `Error`s become `Except` errors, and `setTimeout` handles become
explicit entries in a pending-timer list.  Each definition carries a doc
comment naming the source function it embeds.
-/

/-- Association-list lookup, modelling `Map.get` / `Collection.get` from the
source (`undefined` becomes `none`). -/
def lookupKV {β : Type} : List (String × β) → String → Option β
  | [], _ => none
  | (k1, v1) :: rest, k => if k1 = k then some v1 else lookupKV rest k

/-- Association-list update, modelling `Map.set` / `Collection.set` from the
source: an existing key is overwritten in place, a new key is appended. -/
def setKV {β : Type} : List (String × β) → String → β → List (String × β)
  | [], k, v => [(k, v)]
  | (k1, v1) :: rest, k, v =>
      if k1 = k then (k, v) :: rest else (k1, v1) :: setKV rest k v

/-- Embeds the `Command` class of `src/commands/command.ts` (the fields the
dispatch pipeline and the cooldown store read).  The class constructor
defaults `permission` to 0, `cooldown` to 3 seconds, `runIn` to `["text"]` and
the boolean flags to `false`; `cooldown` is kept as `Option Nat` because
`getTimeLeft` re-applies the default via `cmd.cooldown ?? 3`. -/
structure Command where
  name : String
  description : String := ""
  permission : Int := 0
  cooldown : Option Nat := some 3
  runIn : List String := ["text"]
  hidden : Bool := false
  nsfwOnly : Bool := false
  delete : Bool := false
deriving DecidableEq, Repr

/-- Embeds `bot.commands.get(name)` where `bot.commands` is the
name-keyed command `Collection` populated by `BotClient.loadCommand`. -/
def findCommand (commands : List Command) (commandName : String) : Option Command :=
  commands.find? (fun c => c.name = commandName)

/-- Error kinds of the two `throw new Error(...)` sites in
`CooldownManager.getTimeLeft` and `CooldownManager.updateTimeLeft`. -/
inductive CooldownErr where
  | commandNotFound
  | noTimestampsCollection
deriving DecidableEq, Repr

/-- State of the `CooldownManager` collection of
`src/commands/cooldown-manager.ts`: per command name, the per-user
last-invocation timestamps in milliseconds, plus the pending
`setTimeout` eviction timers (command name, user id, fire time) that
`getTimeLeft` schedules when it opportunistically creates a record. -/
structure CooldownManager where
  timestamps : List (String × List (String × Nat)) := []
  timers : List (String × String × Nat) := []
deriving DecidableEq, Repr

namespace CooldownManager

/-- Embeds `CooldownManager.updateTimeLeft`: throws when the command is not
registered or has no timestamps collection, otherwise stamps `now` as the
last use for this user.  It does not schedule or reschedule any timer. -/
def updateTimeLeft (commands : List Command) (m : CooldownManager)
    (commandName userId : String) (now : Nat) : Except CooldownErr CooldownManager :=
  if (findCommand commands commandName).isNone then
    .error .commandNotFound
  else
    match lookupKV m.timestamps commandName with
    | some ts =>
        .ok { m with timestamps := setKV m.timestamps commandName (setKV ts userId now) }
    | none => .error .noTimestampsCollection

/-- Embeds `CooldownManager.getTimeLeft`.  The returned number is in tenths
of a second: the source computes `Number(((expirationTime - now) / 1000).toFixed(1))`
and `toFixed(1)` rounds to the nearest tenth (half away from zero), which for
integer millisecond inputs is `(expirationTime - now + 50) / 100` in `Nat`
division.  When the user has no record the source calls `updateTimeLeft`
and schedules a `setTimeout` eviction after the cooldown window. -/
def getTimeLeft (commands : List Command) (m : CooldownManager)
    (commandName userId : String) (now : Nat) : Except CooldownErr (Nat × CooldownManager) :=
  match findCommand commands commandName with
  | none => .error .commandNotFound
  | some cmd =>
    let cooldownAmount := (cmd.cooldown.getD 3) * 1000
    match lookupKV m.timestamps commandName with
    | none => .error .noTimestampsCollection
    | some ts =>
      match lookupKV ts userId with
      | some stamp =>
          let expirationTime := stamp + cooldownAmount
          if now < expirationTime then .ok ((expirationTime - now + 50) / 100, m)
          else .ok (0, m)
      | none =>
          let m1 : CooldownManager :=
            { m with timestamps := setKV m.timestamps commandName (setKV ts userId now) }
          .ok (0, { m1 with timers := m1.timers ++ [(commandName, userId, now + cooldownAmount)] })

end CooldownManager

/-- Embeds the entries of `config.permLevels` (`IPermissionLevel` in
`src/permissions/permissions.ts`): a numeric level, a display name, and a
predicate over the incoming message.  The message type is abstract. -/
structure IPermissionLevel (M : Type) where
  level : Int
  name : String
  check : M → Bool

/-- Ordering relation produced by the comparator
`(p, c) => (p.level < c.level ? 1 : -1)` in `BotClient.permlevel`:
`p` sorts before `c` exactly when `p.level ≥ c.level` (descending). -/
def permDescending {M : Type} (p c : IPermissionLevel M) : Prop := c.level ≤ p.level

instance {M : Type} : DecidableRel (@permDescending M) :=
  fun p c => inferInstanceAs (Decidable (c.level ≤ p.level))

instance {M : Type} : IsTotal (IPermissionLevel M) permDescending :=
  ⟨fun p c => le_total c.level p.level⟩

instance {M : Type} : IsTrans (IPermissionLevel M) permDescending :=
  ⟨fun _ _ _ h1 h2 => le_trans h2 h1⟩

/-- Embeds the `while` loop body of `BotClient.permlevel`: walk the
descending-sorted tier list and stop at the first tier whose `check`
accepts the message; without a match the initial value 0 survives. -/
def permlevelGo {M : Type} (message : M) : List (IPermissionLevel M) → Int
  | [] => 0
  | t :: rest => if t.check message then t.level else permlevelGo message rest

/-- Embeds `BotClient.permlevel` of `src/client/bot-client.ts`: copies the
configured tiers, sorts them descending by level (JavaScript `Array.sort`
is stable, modelled by the stable insertion sort), and returns the level of
the first tier whose predicate holds, defaulting to 0. -/
def permlevel {M : Type} (permLevels : List (IPermissionLevel M)) (message : M) : Int :=
  permlevelGo message (permLevels.insertionSort permDescending)

/-- Tests for the ASCII characters matched by the regex class `\s`
(space, tab, line feed, vertical tab, form feed, carriage return). -/
def jsWhitespace (c : Char) : Bool :=
  c.toNat = 32 || c.toNat = 9 || c.toNat = 10 || c.toNat = 11 || c.toNat = 12 || c.toNat = 13

/-- Characters removed by the punctuation-stripping regex in `stringMatch`
(`src/listeners/listener.ts`).  Built from character codes so the list can
include brackets and similar characters verbatim. -/
def punctuationChars : List Char :=
  [46, 44, 47, 35, 33, 36, 37, 94, 38, 42, 59, 58, 123, 125, 61, 45, 95, 96, 126, 40, 41, 63].map Char.ofNat

/-- Single pass behind `collapseWhitespace`: with `skipping = true` the
space replacing the current whitespace run has already been emitted, so
further whitespace of the run is dropped; otherwise a whitespace character
followed by another one starts a run (emit one space), and a lone
whitespace character is kept as it is. -/
def collapseAux : Bool → List Char → List Char
  | _, [] => []
  | skipping, c :: rest =>
    if skipping && jsWhitespace c then collapseAux true rest
    else
      if jsWhitespace c then
        match rest with
        | d :: _ =>
            if jsWhitespace d then ' ' :: collapseAux true rest
            else c :: collapseAux false rest
        | [] => [c]
      else c :: collapseAux false rest

/-- Embeds the replacement of `/\s{2,}/g` (and the equivalent `/\s\s+/g`)
by a single space: every maximal run of two or more whitespace characters
becomes one space, a lone whitespace character is kept as it is. -/
def collapseWhitespace (cs : List Char) : List Char := collapseAux false cs

/-- Embeds the punctuation-stripping `.replace(...)` of `stringMatch`. -/
def stripPunctuation (cs : List Char) : List Char :=
  cs.filter (fun c => !(punctuationChars.contains c))

/-- Embeds `.toLowerCase()` (ASCII fragment, matching `Char.toLower`). -/
def lowercase (cs : List Char) : List Char := cs.map Char.toLower

/-- Embeds the content normalization of `stringMatch`: strip punctuation,
collapse whitespace runs, lowercase — in source order. -/
def normalizeContent (cs : List Char) : List Char :=
  lowercase (collapseWhitespace (stripPunctuation cs))

/-- Embeds `String.prototype.trim` (ASCII whitespace fragment). -/
def trimWhitespace (cs : List Char) : List Char :=
  ((cs.dropWhile jsWhitespace).reverse.dropWhile jsWhitespace).reverse

/-- Consumes `tok` as a literal from the front of `cs`, returning the rest;
the building block for the word-boundary regex of `stringMatch`. -/
def matchToken : List Char → List Char → Option (List Char)
  | [], cs => some cs
  | _ :: _, [] => none
  | t :: ts, c :: cs => if c = t then matchToken ts cs else none

/-- After a token, the regex `(\s+w\s+|\s+w$|^w\s+|^w$)` requires either the
end of the string or a whitespace character. -/
def boundaryAfter : List Char → Bool
  | [] => true
  | c :: _ => jsWhitespace c

/-- Does the token occur right here, followed by a boundary? -/
def matchesHere (tok cs : List Char) : Bool :=
  match matchToken tok cs with
  | some rest => boundaryAfter rest
  | none => false

/-- Regex-engine style scan for a boundary-delimited occurrence of `tok`:
`atBoundary` records whether the current position follows the start of the
string or a whitespace character, as the regex alternatives demand before
the token. -/
def boundaryScan (tok : List Char) : Bool → List Char → Bool
  | atBoundary, [] => atBoundary && matchesHere tok []
  | atBoundary, c :: rest =>
      (atBoundary && matchesHere tok (c :: rest)) || boundaryScan tok (jsWhitespace c) rest

/-- Embeds `content.match(makeRegex(w))` of `stringMatch` for a literal
token `w` (no regex metacharacters): the regex
`(\s+w\s+|\s+w$|^w\s+|^w$)` matches exactly when `w` occurs delimited by
whitespace or the ends of the string. -/
def boundaryMatch (tok cs : List Char) : Bool := boundaryScan tok true cs

/-- Apostrophe as a one-character string, used to spell the contractions of
the shared vocabulary verbatim. -/
def apostropheStr : String := String.singleton (Char.ofNat 39)

/-- Embeds the `COMMON_EXPRESSIONS` table of `src/listeners/listener.ts` as
literal alternative lists (each regex there is a plain alternation).  The
`me` entry of the source uses a starred regular expression, which is outside
this literal-alternation fragment and not consulted by any claim; tokens
naming it are treated literally here. -/
def COMMON_EXPRESSIONS : List (String × List String) :=
  [ ("action", ["want", "wanna", "gonna", "going to", "will"]),
    ("yes", ["y", "yes", "ye", "yeah", "yep", "indeed", "correct", "mhm", "sure",
             "ok", "okay", "alright", "alrighty", "why not"]),
    ("no", ["no", "na", "nah", "not really", "nope"]),
    ("be", ["i" ++ apostropheStr ++ "m", "am", "was", "will be", "are", "were", "is", "be"]) ]

/-- Brace characters stripped by `commonWord` before the vocabulary lookup. -/
def braceChars : List Char := [123, 125].map Char.ofNat

/-- Embeds the key computation of `commonWord`:
`placeholder.replace(/(\x7b|\x7d)/g, means the braces, '').trim()`. -/
def commonKey (w : String) : String :=
  String.mk (trimWhitespace (w.toList.filter (fun c => !(braceChars.contains c))))

/-- Embeds `commonWord` of `stringMatch`: a token whose brace-stripped,
trimmed form names a `COMMON_EXPRESSIONS` class stands for that class's
alternatives, any other token stands for itself. -/
def tokenAlternatives (w : String) : List String :=
  match lookupKV COMMON_EXPRESSIONS (commonKey w) with
  | some alts => alts
  | none => [w]

/-- Does the (substituted) token match the normalized content at a
word/phrase boundary?  Models `content.match(makeRegex(commonWord(w)))`. -/
def tokenMatches (content : List Char) (w : String) : Bool :=
  (tokenAlternatives w).any (fun a => boundaryMatch a.toList content)

/-- Embeds the `words` field of `IListenerOptions`: a single pattern token
or an array of tokens. -/
inductive ListenerWords where
  | single (w : String)
  | many (ws : List String)
deriving DecidableEq, Repr

/-- Embeds `stringMatch` of `src/listeners/listener.ts`: normalize the
message content, then require the single token to boundary-match, or for an
array every token to boundary-match independently (logical AND). -/
def stringMatch (content : String) (words : ListenerWords) : Bool :=
  let c := normalizeContent content.toList
  match words with
  | .single w => tokenMatches c w
  | .many ws => ws.all (fun w => tokenMatches c w)

/-- Embeds `validatePrefix` of `src/commands/command.ts` (identical to
`Conditions._validatePrefix` in `src/commands/command-runner.ts`): the
message content is trimmed, lowercased and whitespace-collapsed, then
compared against the default prefix, or against a per-guild override where
an override equal to the default (or an empty one) counts as no override.
`none` models the `false` return. -/
def validatePrefix (content : String) (dp : String)
    (guildPrefixes : Option (List (String × String))) (guildId : Option String) :
    Option String :=
  let c := collapseWhitespace (lowercase (trimWhitespace content.toList))
  match guildPrefixes with
  | none => if List.isPrefixOf dp.toList c then some dp else none
  | some m =>
    let entry : Option String :=
      match guildId with
      | some g => lookupKV m g
      | none => none
    let custom : Option String :=
      match entry with
      | some p => if p = dp then none else some p
      | none => none
    let customTruthy : Bool :=
      match custom with
      | some p => !p.isEmpty
      | none => false
    if customTruthy && List.isPrefixOf dp.toList c then none
    else if customTruthy && List.isPrefixOf (custom.getD "").toList c then custom
    else if !customTruthy && List.isPrefixOf dp.toList c then some dp
    else none

/-- Transient feedback messages the dispatch pipeline can send, by the
message template used (`bot.config.messages`).  The NSFW gate of
`CommandRunner.run` reuses the `COMMAND_FEEDBACK_SERVER_ONLY` template. -/
inductive Feedback where
  | serverOnly
  | dmOnly
  | missingPermission
  | missingArgsSingular
  | missingArgsPlural
  | cooldownWait
deriving DecidableEq, Repr

namespace Conditions

/-- Embeds `Conditions.isForbiddenServerOnly`: a DM message whose command
does not list the `dm` run context. -/
def isForbiddenServerOnly (cmd : Command) (isDM : Bool) : Bool :=
  isDM && !(cmd.runIn.contains "dm")

/-- Embeds `Conditions.isForbiddenDMOnly`: a guild message whose command
lists neither the `text` nor the `guild` run context. -/
def isForbiddenDMOnly (cmd : Command) (isDM : Bool) : Bool :=
  !isDM && !(cmd.runIn.contains "text" || cmd.runIn.contains "guild")

/-- Embeds `Conditions.isUnsafeNSFWCommand`: for an NSFW-only command the
expression `!(channel.nsfw) ?? true` is simply the negation of the channel
flag, because a boolean is never nullish. -/
def isUnsafeNSFWCommand (cmd : Command) (channelNsfw : Bool) : Bool :=
  if !cmd.nsfwOnly then false else !channelNsfw

end Conditions

/-- Result of `Conditions.meetsPermissionLevel`: `passed` is the literal
`true`, `schemaError` the `SensumSchemaError` for a required level missing
from the configuration, and `denied` carries the (possibly unresolved)
caller tier and the resolved required tier of the `IPermissionError`. -/
inductive PermGateOutcome (M : Type) where
  | passed
  | schemaError
  | denied (userLevel : Option (IPermissionLevel M)) (requiredLevel : IPermissionLevel M)

/-- Embeds `Conditions.meetsPermissionLevel` of
`src/commands/command-runner.ts`: both tier lookups run first, then the
comparison `context.permLevel < context.command.permission` decides
between `passed`, a missing-configuration error, and a denial. -/
def meetsPermissionLevel {M : Type} (permLevels : List (IPermissionLevel M))
    (cmd : Command) (permLevel : Int) : PermGateOutcome M :=
  let requiredPermissionLevel := permLevels.find? (fun l => l.level = cmd.permission)
  let userPermissionLevel := permLevels.find? (fun l => l.level = permLevel)
  if permLevel < cmd.permission then
    match requiredPermissionLevel with
    | none => .schemaError
    | some r => .denied userPermissionLevel r
  else .passed

/-- Per-message input of the gate chain of `CommandRunner.run`, collecting
the message fields and the parts of the command context
(`buildCommandContext`) that the gates read.  `prefixResolved` is the
result of `Conditions.hasCorrectPrefix`, `validationErrors` is the
context's validation-error list (absent when validation passed), and
`permLevel` the caller tier computed by `bot.permlevel`. -/
structure GateInput where
  authorBot : Bool := false
  prefixResolved : Option String := some "!"
  command : Option Command := none
  isDM : Bool := false
  channelNsfw : Bool := false
  permLevel : Int := 0
  validationErrors : Option (List String) := none
  userId : String := "user"
deriving DecidableEq, Repr

/-- Observable outcome of one `CommandRunner.run` invocation: the transient
feedback sent (in order), whether a configuration error was emitted on the
error channel, whether an exception escaped the runner, whether the
`command` usage event was emitted, whether the invoking message was
deleted, whether the command handler was invoked, and the cooldown store
afterwards. -/
structure GateResult where
  feedback : List Feedback := []
  errorEmitted : Bool := false
  threw : Bool := false
  commandLogged : Bool := false
  messageDeleted : Bool := false
  handlerRan : Bool := false
  store : CooldownManager
deriving DecidableEq, Repr

namespace CommandRunner

/-- Embeds `CommandRunner.run` of `src/commands/command-runner.ts` from the
bot check through handler invocation, with `buildCommandContext` abstracted
into the `GateInput` fields and the member-fetch step (a pure hydration
await) omitted.  The DM-only branch mirrors the source faithfully: unlike
every other gate it sends its feedback *without* returning, so execution
falls through to the permission gate. -/
def run {M : Type} (permLevels : List (IPermissionLevel M)) (commands : List Command)
    (store : CooldownManager) (now : Nat) (inp : GateInput) : GateResult :=
  let base : GateResult := { store := store }
  if inp.authorBot then base
  else if inp.prefixResolved.isNone then base
  else
    match inp.command with
    | none => base
    | some cmd =>
      if Conditions.isUnsafeNSFWCommand cmd inp.channelNsfw then
        { base with feedback := [.serverOnly] }
      else if Conditions.isForbiddenServerOnly cmd inp.isDM then
        { base with feedback := [.serverOnly] }
      else
        let fb0 : List Feedback :=
          if Conditions.isForbiddenDMOnly cmd inp.isDM then [.dmOnly] else []
        match meetsPermissionLevel permLevels cmd inp.permLevel with
        | .schemaError => { base with feedback := fb0, errorEmitted := true }
        | .denied userLevel _ =>
            if !cmd.hidden then
              match userLevel with
              | none => { base with feedback := fb0, threw := true }
              | some _ => { base with feedback := fb0 ++ [.missingPermission] }
            else { base with feedback := fb0 }
        | .passed =>
          match inp.validationErrors with
          | some errs =>
              { base with feedback :=
                  fb0 ++ [if errs.length > 1 then .missingArgsPlural else .missingArgsSingular] }
          | none =>
            match CooldownManager.getTimeLeft commands store cmd.name inp.userId now with
            | .error _ => { base with feedback := fb0, threw := true }
            | .ok (cooldownLeft, store1) =>
              if cooldownLeft > 0 then
                { base with feedback := fb0 ++ [.cooldownWait], store := store1 }
              else
                match CooldownManager.updateTimeLeft commands store1 cmd.name inp.userId now with
                | .error _ => { base with feedback := fb0, threw := true, store := store1 }
                | .ok store2 =>
                    { feedback := fb0, errorEmitted := false, threw := false,
                      commandLogged := true, messageDeleted := cmd.delete,
                      handlerRan := true, store := store2 }

end CommandRunner

/-- Values a listener handler (`listener.run`) can return, as the runner
distinguishes them: the literal `true` (stop the category), the literal
`false` (emit the listener event but continue), or anything else. -/
inductive ListenerRet where
  | rTrue
  | rFalse
  | rOther
deriving DecidableEq, Repr

/-- Message fields read by the listener engine. -/
structure ListenerMsg where
  authorBot : Bool := false
  authorId : String := "user"
  guildId : Option String := none
  channelId : String := "chan"
  content : String := ""
deriving DecidableEq, Repr

/-- Embeds the `IgnoreSettings` records of `ListenerIgnoreList`: window
start, duration in milliseconds, and the `setTimeout` handle (a timer id
here) of the scheduled expiry, if any. -/
structure IgnoreSettings where
  start : Nat
  duration : Nat
  timeout : Option Nat
deriving DecidableEq, Repr

/-- One of the two collections (`guilds` or `channels`) of
`ListenerIgnoreList`, together with the pending `setTimeout` expiries it
has scheduled: `pending` holds (timer id, target id, fire time) and
`nextTimer` supplies fresh timer ids. -/
structure IgnoreCollection where
  entries : List (String × IgnoreSettings) := []
  pending : List (Nat × String × Nat) := []
  nextTimer : Nat := 0
deriving DecidableEq, Repr

/-- Association-list removal, modelling `Map.delete` / `Collection.delete`. -/
def eraseKV {β : Type} : List (String × β) → String → List (String × β)
  | [], _ => []
  | (k1, v1) :: rest, k => if k1 = k then rest else (k1, v1) :: eraseKV rest k

namespace IgnoreCollection

/-- Embeds `ListenerIgnoreList.ignoreChannel` (and the identical
`ignoreGuild`) for a single id: clear the previous window's timeout if it
has one, then store a fresh window started at `now`; a non-zero duration
schedules a new expiry, a zero duration stores a `null` timeout. -/
def ignoreId (s : IgnoreCollection) (id : String) (duration : Nat) (now : Nat) :
    IgnoreCollection :=
  let s1 :=
    match lookupKV s.entries id with
    | some e =>
        match e.timeout with
        | some tid => { s with pending := s.pending.filter (fun p => p.1 ≠ tid) }
        | none => s
    | none => s
  if duration = 0 then
    { s1 with entries := setKV s1.entries id { start := now, duration := duration, timeout := none } }
  else
    { s1 with
      entries := setKV s1.entries id
        { start := now, duration := duration, timeout := some s1.nextTimer },
      pending := s1.pending ++ [(s1.nextTimer, id, now + duration)],
      nextTimer := s1.nextTimer + 1 }

/-- Embeds `ListenerIgnoreList.listenChannel` (and the identical
`listenGuild`) for a single id: clear the window's timeout if present and
delete the entry. -/
def listenId (s : IgnoreCollection) (id : String) : IgnoreCollection :=
  match lookupKV s.entries id with
  | some e =>
      let s1 :=
        match e.timeout with
        | some tid => { s with pending := s.pending.filter (fun p => p.1 ≠ tid) }
        | none => s
      { s1 with entries := eraseKV s1.entries id }
  | none => s

/-- Embeds the firing of a scheduled expiry callback
`() => this.channels.delete(id)`: a timer that is still pending deletes its
target entry and leaves the pending list; a cleared timer never fires, so
firing an unknown timer id is a no-op. -/
def fireTimer (s : IgnoreCollection) (tid : Nat) : IgnoreCollection :=
  match s.pending.find? (fun p => p.1 = tid) with
  | some (_, target, _) =>
      { s with entries := eraseKV s.entries target,
               pending := s.pending.filter (fun p => p.1 ≠ tid) }
  | none => s

/-- Timers currently pending for a given target id. -/
def timersFor (s : IgnoreCollection) (id : String) : List (Nat × String × Nat) :=
  s.pending.filter (fun p => p.2.1 = id)

end IgnoreCollection

/-- Folds a sequence of expiry-callback firings over the collection,
modelling the passage of time during which scheduled `setTimeout`
callbacks run in some order. -/
def fireAll (s : IgnoreCollection) (tids : List Nat) : IgnoreCollection :=
  tids.foldl IgnoreCollection.fireTimer s

/-- Embeds `ListenerIgnoreList`: the guild and channel ignore collections. -/
structure ListenerIgnoreList where
  guilds : IgnoreCollection := {}
  channels : IgnoreCollection := {}
deriving DecidableEq, Repr

/-- Embeds the `Listener` class of `src/listeners/listener.ts` (the fields
the runner reads).  The constructor turns a zero or missing
`globalCooldown` into `undefined` (`none` here) and a missing
`maxMessageLength` into `Infinity` (`none` here).  `_cooldowns` is the
per-listener clock map keyed by user id or by `GUILD_` plus the guild id,
holding expiry times in milliseconds.  `id` tags the listener so the model
can record handler invocations, and `retVal` is the value its handler
returns. -/
structure Listener where
  id : Nat
  words : ListenerWords
  cooldown : Nat
  globalCooldown : Option Nat := none
  maxMessageLength : Option Nat := none
  priority : Int := 0
  category : String := "other"
  retVal : ListenerRet := .rOther
  cooldowns : List (String × Nat) := []
deriving DecidableEq, Repr

namespace Listener

/-- Embeds `Listener.evaluate`: skip bot authors, skip while the per-guild
global clock or the per-caller clock is running (an absent global entry
compares as `NaN` and never blocks; a stored 0 is falsy and never blocks),
test the patterns, bail out if the guild or channel is ignored, otherwise
invoke the handler, set the per-caller clock and, when configured and in a
guild, the global clock.  Returns the handler result (`none` for the
source's `null`/`undefined`), the updated listener, and whether the
handler was invoked. -/
def evaluate (ignored : ListenerIgnoreList) (now : Nat) (message : ListenerMsg)
    (l : Listener) : Option ListenerRet × Listener × Bool :=
  if message.authorBot then (none, l, false)
  else if (match message.guildId, l.globalCooldown with
           | some gid, some _ =>
               (match lookupKV l.cooldowns ("GUILD_" ++ gid) with
                | some v => decide (now < v)
                | none => false)
           | _, _ => false) then (none, l, false)
  else if (match lookupKV l.cooldowns message.authorId with
           | none => true
           | some v => v = 0 || now > v) then
    if stringMatch message.content l.words then
      if (match message.guildId with
          | some gid => (lookupKV ignored.guilds.entries gid).isSome
          | none => false) then (none, l, false)
      else if (lookupKV ignored.channels.entries message.channelId).isSome then (none, l, false)
      else
        let l1 := { l with cooldowns := setKV l.cooldowns message.authorId (now + l.cooldown * 1000) }
        let l2 :=
          match message.guildId, l.globalCooldown with
          | some gid, some g =>
              { l1 with cooldowns := setKV l1.cooldowns ("GUILD_" ++ gid) (now + g * 1000) }
          | _, _ => l1
        (some l.retVal, l2, true)
    else (none, l, false)
  else (none, l, false)

end Listener

/-- Ascending-priority order of the comparator
`(a, b) => a.priority - b.priority` used by the `ListenerRunner`
constructor. -/
def priorityLE (a b : Listener) : Prop := a.priority ≤ b.priority

instance : DecidableRel priorityLE :=
  fun a b => inferInstanceAs (Decidable (a.priority ≤ b.priority))

instance : IsTotal Listener priorityLE := ⟨fun a b => le_total a.priority b.priority⟩

instance : IsTrans Listener priorityLE := ⟨fun _ _ _ h1 h2 => le_trans h1 h2⟩

/-- Embeds the `mappedListeners` construction of the `ListenerRunner`
constructor for one category: the registered listeners of that category,
kept sorted ascending by priority (JavaScript `Array.sort` is stable,
modelled by the stable insertion sort). -/
def mappedListenersFor (botListeners : List Listener) (category : String) : List Listener :=
  (botListeners.filter (fun l => l.category = category)).insertionSort priorityLE

/-- Embeds the length cutoff `message.content.length > listener.maxMessageLength`
at the top of the category loop (`none` models `Infinity`, which no length
exceeds). -/
def lengthSkipped (message : ListenerMsg) (l : Listener) : Bool :=
  match l.maxMessageLength with
  | some maxLen => decide (message.content.length > maxLen)
  | none => false

/-- Embeds `runListenersInCategory` of `ListenerRunner.listen`: walk the
category in order, skip listeners whose length cutoff rejects the message,
evaluate the rest, emit the `listener` event when the result is the
literal `true` or `false`, and break out of the category when it is the
literal `true`.  Returns the ids of listeners whose handler was invoked
(in order), the updated listener states, and the ids for which the
`listener` event was emitted. -/
def runListenersInCategory (ignored : ListenerIgnoreList) (now : Nat)
    (message : ListenerMsg) : List Listener → List Nat × List Listener × List Nat
  | [] => ([], [], [])
  | l :: rest =>
    if lengthSkipped message l then
      let (inv, ls, ev) := runListenersInCategory ignored now message rest
      (inv, l :: ls, ev)
    else
      match Listener.evaluate ignored now message l with
      | (result, l2, invoked) =>
        let evHere : List Nat := if result = some .rTrue || result = some .rFalse then [l.id] else []
        let invHere : List Nat := if invoked then [l.id] else []
        if result = some .rTrue then (invHere, l2 :: rest, evHere)
        else
          let (inv, ls, ev) := runListenersInCategory ignored now message rest
          (invHere ++ inv, l2 :: ls, evHere ++ ev)

/-- Embeds `runAllListeners` of `ListenerRunner.listen`: each category of
`mappedListeners` is processed by its own `runListenersInCategory` call,
independently of the others. -/
def runAllListeners (ignored : ListenerIgnoreList) (now : Nat) (message : ListenerMsg) :
    List (String × List Listener) → List (String × (List Nat × List Listener × List Nat))
  | [] => []
  | (category, ls) :: rest =>
      (category, runListenersInCategory ignored now message ls) ::
        runAllListeners ignored now message rest

/-- Declarative word/phrase-boundary occurrence: the token appears in the
content with the start of the string or a whitespace character right
before it, and the end of the string or a whitespace character right
after it — the property the regex of `stringMatch` enforces. -/
def BoundaryOcc (tok content : List Char) : Prop :=
  ∃ pre post, content = pre ++ tok ++ post ∧
    (pre = [] ∨ ∃ c, pre.getLast? = some c ∧ jsWhitespace c = true) ∧
    (post = [] ∨ ∃ c, post.head? = some c ∧ jsWhitespace c = true)

/-!
Theorems.  First the generic association-list lemmas, then per-claim
helper lemmas and the claim theorems themselves.
-/

theorem lookupKV_setKV_self {β : Type} (l : List (String × β)) (k : String) (v : β) :
    lookupKV (setKV l k v) k = some v := by
  induction l with
  | nil => simp [setKV, lookupKV]
  | cons hd tl ih =>
      obtain ⟨k1, v1⟩ := hd
      by_cases h : k1 = k
      · simp [setKV, h, lookupKV]
      · simp [setKV, h, lookupKV, ih]

theorem lookupKV_setKV_ne {β : Type} (l : List (String × β)) {k1 k2 : String} (v : β)
    (h : k1 ≠ k2) : lookupKV (setKV l k1 v) k2 = lookupKV l k2 := by
  induction l with
  | nil => simp [setKV, lookupKV, h]
  | cons hd tl ih =>
      obtain ⟨ka, va⟩ := hd
      by_cases hk : ka = k1
      · subst hk
        simp [setKV, lookupKV, h]
      · simp [setKV, hk, lookupKV, ih]


theorem CooldownManager.getTimeLeft_record (commands : List Command) (m : CooldownManager)
    (commandName userId : String) (now : Nat) (cmd : Command) (ts : List (String × Nat))
    (stamp : Nat)
    (hc : findCommand commands commandName = some cmd)
    (hts : lookupKV m.timestamps commandName = some ts)
    (hst : lookupKV ts userId = some stamp) :
    CooldownManager.getTimeLeft commands m commandName userId now =
      .ok (if now < stamp + (cmd.cooldown.getD 3) * 1000
           then (stamp + (cmd.cooldown.getD 3) * 1000 - now + 50) / 100 else 0, m) := by
  unfold CooldownManager.getTimeLeft
  rw [hc, hts]
  simp only [hst]
  by_cases h : now < stamp + (cmd.cooldown.getD 3) * 1000
  · simp [h]
  · simp [h]

theorem CooldownManager.getTimeLeft_create (commands : List Command) (m : CooldownManager)
    (commandName userId : String) (now : Nat) (cmd : Command) (ts : List (String × Nat))
    (hc : findCommand commands commandName = some cmd)
    (hts : lookupKV m.timestamps commandName = some ts)
    (hst : lookupKV ts userId = none) :
    CooldownManager.getTimeLeft commands m commandName userId now =
      .ok (0, { timestamps := setKV m.timestamps commandName (setKV ts userId now),
                timers := m.timers ++ [(commandName, userId, now + (cmd.cooldown.getD 3) * 1000)] }) := by
  unfold CooldownManager.getTimeLeft
  rw [hc, hts]
  simp only [hst]

/-- C3, counterexample: on an unregistered command name `getTimeLeft` does
not return 0 — it throws (the first `throw new Error` in the source),
refuting the claim at the concrete input (command `foo`, caller `caller`). -/
theorem c3_counterexample :
    CooldownManager.getTimeLeft [] {} "foo" "caller" 0 = .error .commandNotFound := rfl

/-- C3, amended: for every caller id and every command name that is not
registered in the command collection, `getTimeLeft` fails with the
command-not-found error instead of returning 0. -/
theorem c3_unknown_command_throws (commands : List Command) (m : CooldownManager)
    (commandName userId : String) (now : Nat)
    (h : findCommand commands commandName = none) :
    CooldownManager.getTimeLeft commands m commandName userId now =
      .error .commandNotFound := by
  unfold CooldownManager.getTimeLeft
  rw [h]

theorem c3_witness :
    CooldownManager.getTimeLeft [] {} "foo" "caller" 99 = .error .commandNotFound :=
  c3_unknown_command_throws [] {} "foo" "caller" 99 (by decide)

/-- C4, counterexample: the first `getTimeLeft` for a caller with no record
mutates the store — it opportunistically creates the record and schedules
an eviction timer — so "never mutates the cooldown store's state" fails at
this concrete input (registered command `ping`, caller `u`). -/
theorem c4_counterexample :
    CooldownManager.getTimeLeft [{ name := "ping", description := "d" }]
        { timestamps := [("ping", [])] } "ping" "u" 1000 =
      .ok (0, { timestamps := [("ping", [("u", 1000)])],
                timers := [("ping", "u", 4000)] }) ∧
    ({ timestamps := [("ping", [("u", 1000)])],
       timers := [("ping", "u", 4000)] } : CooldownManager) ≠
      { timestamps := [("ping", [])] } :=
  ⟨rfl, by decide⟩

/-- C4, amended: `getTimeLeft` mutates the store only to create a missing
record.  Once a record exists for the (command, caller) pair the call
returns the store untouched, and after any successful call a repeated
`getTimeLeft` without an intervening `updateTimeLeft` leaves the store of
the first call unchanged. -/
theorem c4_remaining_idempotent (commands : List Command) (m : CooldownManager)
    (commandName userId : String) (now : Nat) (cmd : Command) (ts : List (String × Nat))
    (hc : findCommand commands commandName = some cmd)
    (hts : lookupKV m.timestamps commandName = some ts) :
    ((lookupKV ts userId).isSome →
      ∃ v, CooldownManager.getTimeLeft commands m commandName userId now = .ok (v, m)) ∧
    (∀ v1 m1, CooldownManager.getTimeLeft commands m commandName userId now = .ok (v1, m1) →
      ∃ v2, CooldownManager.getTimeLeft commands m1 commandName userId now = .ok (v2, m1)) := by
  constructor
  · intro hsome
    obtain ⟨stamp, hst⟩ := Option.isSome_iff_exists.mp hsome
    exact ⟨_, CooldownManager.getTimeLeft_record commands m commandName userId now cmd ts
      stamp hc hts hst⟩
  · intro v1 m1 h1
    cases hst : lookupKV ts userId with
    | some stamp =>
        have hrec := CooldownManager.getTimeLeft_record commands m commandName userId now
          cmd ts stamp hc hts hst
        rw [hrec] at h1
        injection h1 with hpair
        injection hpair with hv hm
        subst hm
        exact ⟨_, hrec⟩
    | none =>
        have hcreate := CooldownManager.getTimeLeft_create commands m commandName userId now
          cmd ts hc hts hst
        rw [hcreate] at h1
        injection h1 with hpair
        injection hpair with hv hm
        subst hm
        exact ⟨_, CooldownManager.getTimeLeft_record commands _ commandName userId now cmd
          (setKV ts userId now) now hc (lookupKV_setKV_self _ _ _) (lookupKV_setKV_self _ _ _)⟩

theorem c4_witness :
    ∃ v, CooldownManager.getTimeLeft [{ name := "ping", description := "d" }]
        { timestamps := [("ping", [("u", 500)])] } "ping" "u" 600 =
      .ok (v, { timestamps := [("ping", [("u", 500)])] }) :=
  (c4_remaining_idempotent [{ name := "ping", description := "d" }]
      { timestamps := [("ping", [("u", 500)])] } "ping" "u" 600
      { name := "ping", description := "d" } [("u", 500)] (by decide) (by decide)).1
    (by decide)

/-- C5: immediately after `updateTimeLeft` stamps `now`, `getTimeLeft`
returns exactly the configured cooldown (in tenths of a second, so
`10 * cooldown`; the default 3 applies when the field is unset), the value
is antitone as time advances, reaches exactly 0 no later than the end of
the window, stays 0 afterwards, and none of these queries mutate the
store. -/
theorem c5_remaining_window (commands : List Command) (m m2 : CooldownManager)
    (commandName userId : String) (t0 : Nat) (cmd : Command) (ts : List (String × Nat))
    (hc : findCommand commands commandName = some cmd)
    (hts : lookupKV m.timestamps commandName = some ts)
    (hupd : CooldownManager.updateTimeLeft commands m commandName userId t0 = .ok m2) :
    (CooldownManager.getTimeLeft commands m2 commandName userId t0 =
        .ok (10 * cmd.cooldown.getD 3, m2)) ∧
    (∀ t1 t2 v1 v2 m3 m4, t1 ≤ t2 →
        CooldownManager.getTimeLeft commands m2 commandName userId t1 = .ok (v1, m3) →
        CooldownManager.getTimeLeft commands m2 commandName userId t2 = .ok (v2, m4) →
        v2 ≤ v1 ∧ m3 = m2 ∧ m4 = m2) ∧
    (∀ t, t0 + (cmd.cooldown.getD 3) * 1000 ≤ t →
        CooldownManager.getTimeLeft commands m2 commandName userId t = .ok (0, m2)) := by
  have hx : ({ m with timestamps := setKV m.timestamps commandName (setKV ts userId t0) } :
      CooldownManager) = m2 := by
    unfold CooldownManager.updateTimeLeft at hupd
    rw [hc] at hupd
    simp only [Option.isSome_some, Option.isNone_some, Bool.false_eq_true, if_false, hts] at hupd
    exact Except.ok.inj hupd
  subst hx
  have hrec : ∀ t, CooldownManager.getTimeLeft commands
      { m with timestamps := setKV m.timestamps commandName (setKV ts userId t0) }
      commandName userId t =
      .ok (if t < t0 + (cmd.cooldown.getD 3) * 1000
           then (t0 + (cmd.cooldown.getD 3) * 1000 - t + 50) / 100 else 0,
           { m with timestamps := setKV m.timestamps commandName (setKV ts userId t0) }) :=
    fun t => CooldownManager.getTimeLeft_record commands _ commandName userId t cmd
      (setKV ts userId t0) t0 hc (lookupKV_setKV_self _ _ _) (lookupKV_setKV_self _ _ _)
  refine ⟨?_, ?_, ?_⟩
  · rw [hrec t0]
    have hval : (if t0 < t0 + (cmd.cooldown.getD 3) * 1000
        then (t0 + (cmd.cooldown.getD 3) * 1000 - t0 + 50) / 100 else 0) =
        10 * cmd.cooldown.getD 3 := by
      by_cases h : t0 < t0 + (cmd.cooldown.getD 3) * 1000
      · rw [if_pos h]
        omega
      · rw [if_neg h]
        omega
    rw [hval]
  · intro t1 t2 v1 v2 m3 m4 h12 h1 h2
    rw [hrec t1] at h1
    rw [hrec t2] at h2
    injection h1 with hp1
    injection hp1 with hv1 hm1
    injection h2 with hp2
    injection hp2 with hv2 hm2
    subst hv1
    subst hv2
    refine ⟨?_, hm1.symm, hm2.symm⟩
    by_cases ha : t2 < t0 + (cmd.cooldown.getD 3) * 1000
    · have hb : t1 < t0 + (cmd.cooldown.getD 3) * 1000 := lt_of_le_of_lt h12 ha
      rw [if_pos ha, if_pos hb]
      exact Nat.div_le_div_right (by omega)
    · rw [if_neg ha]
      exact Nat.zero_le _
  · intro t ht
    rw [hrec t]
    rw [if_neg (by omega)]

theorem c5_witness :
    CooldownManager.getTimeLeft [{ name := "ping", description := "d" }]
        { timestamps := [("ping", [("u", 100)])] } "ping" "u" 100 =
      .ok (30, { timestamps := [("ping", [("u", 100)])] }) :=
  (c5_remaining_window [{ name := "ping", description := "d" }]
      { timestamps := [("ping", [])] } { timestamps := [("ping", [("u", 100)])] }
      "ping" "u" 100 { name := "ping", description := "d" } []
      (by decide) (by decide) rfl).1

theorem permlevelGo_eq_zero {M : Type} (message : M) (l : List (IPermissionLevel M))
    (h : ∀ t ∈ l, t.check message = false) : permlevelGo message l = 0 := by
  induction l with
  | nil => rfl
  | cons hd tl ih =>
      simp only [permlevelGo, h hd (List.mem_cons_self hd tl)]
      exact ih (fun t ht => h t (List.mem_cons_of_mem hd ht))

theorem permlevelGo_first_match {M : Type} (message : M) (l : List (IPermissionLevel M))
    (hsorted : l.Sorted permDescending) (t : IPermissionLevel M) (htl : t ∈ l)
    (htc : t.check message = true) :
    ∃ u ∈ l, u.check message = true ∧ permlevelGo message l = u.level ∧
      ∀ w ∈ l, w.check message = true → w.level ≤ u.level := by
  induction l with
  | nil => cases htl
  | cons hd tl ih =>
      obtain ⟨hhd, htl2⟩ := List.sorted_cons.mp hsorted
      by_cases hc : hd.check message = true
      · refine ⟨hd, List.mem_cons_self hd tl, hc, by simp [permlevelGo, hc], ?_⟩
        intro w hw _
        rcases List.mem_cons.mp hw with h | h
        · rw [h]
        · exact hhd w h
      · have htmem : t ∈ tl := by
          rcases List.mem_cons.mp htl with h | h
          · rw [h] at htc
            exact absurd htc hc
          · exact h
        obtain ⟨u, hu, huc, hul, hubound⟩ := ih htl2 htmem
        refine ⟨u, List.mem_cons_of_mem hd hu, huc, ?_, ?_⟩
        · simpa [permlevelGo, hc] using hul
        · intro w hw hwc
          rcases List.mem_cons.mp hw with h | h
          · rw [h] at hwc
            exact absurd hwc hc
          · exact hubound w h hwc

/-- C7: the permission evaluator is total — it always returns a level.
When no configured tier's predicate holds for the message (in particular
when the catch-all level-0 tier is missing from the configuration) it
returns level 0, and when some tier matches, the returned level is the
level of a matching tier that is at least the level of every matching
tier, i.e. the first match when scanning from the highest level down. -/
theorem c7_permlevel_spec {M : Type} (permLevels : List (IPermissionLevel M)) (message : M) :
    ((∀ t ∈ permLevels, t.check message = false) → permlevel permLevels message = 0) ∧
    (∀ t ∈ permLevels, t.check message = true →
      ∃ u ∈ permLevels, u.check message = true ∧ permlevel permLevels message = u.level ∧
        ∀ w ∈ permLevels, w.check message = true → w.level ≤ u.level) := by
  have hperm := List.perm_insertionSort permDescending permLevels
  constructor
  · intro h
    exact permlevelGo_eq_zero message _ (fun t ht => h t (hperm.mem_iff.mp ht))
  · intro t ht htc
    obtain ⟨u, hu, huc, hul, hubound⟩ :=
      permlevelGo_first_match message (permLevels.insertionSort permDescending)
        (List.sorted_insertionSort permDescending permLevels) t (hperm.mem_iff.mpr ht) htc
    exact ⟨u, hperm.mem_iff.mp hu, huc, hul,
      fun w hw hwc => hubound w (hperm.mem_iff.mpr hw) hwc⟩

theorem c7_witness :
    (permlevel [⟨5, "Admin", fun _ => false⟩] () = 0) ∧
    (∃ u ∈ ([⟨0, "User", fun _ => true⟩, ⟨10, "Owner", fun _ => true⟩] :
        List (IPermissionLevel Unit)), u.check () = true ∧
      permlevel [⟨0, "User", fun _ => true⟩, ⟨10, "Owner", fun _ => true⟩] () = u.level ∧
      ∀ w ∈ ([⟨0, "User", fun _ => true⟩, ⟨10, "Owner", fun _ => true⟩] :
          List (IPermissionLevel Unit)), w.check () = true → w.level ≤ u.level) :=
  ⟨(c7_permlevel_spec [⟨5, "Admin", fun _ => false⟩] ()).1 (by decide),
   (c7_permlevel_spec [⟨0, "User", fun _ => true⟩, ⟨10, "Owner", fun _ => true⟩] ()).2
     ⟨0, "User", fun _ => true⟩ (by simp) (by decide)⟩

/-- C1: at a concrete guild message invoking a DM-only command (runIn is
only `dm`) which passes every other gate, `CommandRunner.run` sends the
DM-only transient feedback *and still runs the handler*: the `return` is
missing after the DM-only feedback, so the permission, validation and
cooldown gates are evaluated and the run is committed (cooldown stamped,
usage logged, handler invoked), contradicting the drop the spec's step 6
demands. -/
theorem c1_dm_only_feedback_then_handler_runs :
    (CommandRunner.run [⟨0, "User", (fun _ => true : Unit → Bool)⟩]
        [{ name := "secret", description := "d", runIn := ["dm"] }]
        { timestamps := [("secret", [])] } 0
        { command := some { name := "secret", description := "d", runIn := ["dm"] },
          isDM := false, userId := "u" } : GateResult).feedback = [.dmOnly] ∧
    (CommandRunner.run [⟨0, "User", (fun _ => true : Unit → Bool)⟩]
        [{ name := "secret", description := "d", runIn := ["dm"] }]
        { timestamps := [("secret", [])] } 0
        { command := some { name := "secret", description := "d", runIn := ["dm"] },
          isDM := false, userId := "u" }).handlerRan = true ∧
    (CommandRunner.run [⟨0, "User", (fun _ => true : Unit → Bool)⟩]
        [{ name := "secret", description := "d", runIn := ["dm"] }]
        { timestamps := [("secret", [])] } 0
        { command := some { name := "secret", description := "d", runIn := ["dm"] },
          isDM := false, userId := "u" }).commandLogged = true :=
  ⟨rfl, rfl, rfl⟩

/-- C6, counterexample: a message that fails both the permission gate and
argument validation, invoking a *hidden* command, produces zero transient
feedback messages, not exactly one — the permission branch skips the
feedback for hidden commands and still returns. -/
theorem c6_counterexample :
    (CommandRunner.run [⟨0, "User", (fun _ => true : Unit → Bool)⟩, ⟨10, "Owner", fun _ => true⟩]
        [{ name := "eval", description := "d", permission := 10, hidden := true }]
        { timestamps := [("eval", [])] } 0
        { command := some { name := "eval", description := "d", permission := 10, hidden := true },
          isDM := false, permLevel := 0, validationErrors := some ["x"],
          userId := "u" }).feedback = [] ∧
    (CommandRunner.run [⟨0, "User", (fun _ => true : Unit → Bool)⟩, ⟨10, "Owner", fun _ => true⟩]
        [{ name := "eval", description := "d", permission := 10, hidden := true }]
        { timestamps := [("eval", [])] } 0
        { command := some { name := "eval", description := "d", permission := 10, hidden := true },
          isDM := false, permLevel := 0, validationErrors := some ["x"],
          userId := "u" }).handlerRan = false :=
  ⟨rfl, rfl⟩

/-- C6, amended: for a message that reaches the permission gate (bot check,
prefix, command resolution and the three context gates pass) with a caller
tier below the command's required tier — both tiers resolvable in the
configuration — and validation errors attached, the pipeline stops at the
permission gate: the validation feedback is never sent, the handler never
runs, the store is untouched, and the only feedback is the permission one,
sent exactly when the command is not hidden. -/
theorem c6_permission_gate_precedes_validation {M : Type}
    (permLevels : List (IPermissionLevel M)) (commands : List Command)
    (store : CooldownManager) (now : Nat) (inp : GateInput) (cmd : Command)
    (req usr : IPermissionLevel M)
    (hbot : inp.authorBot = false)
    (hpre : inp.prefixResolved.isSome)
    (hcmd : inp.command = some cmd)
    (hnsfw : Conditions.isUnsafeNSFWCommand cmd inp.channelNsfw = false)
    (hso : Conditions.isForbiddenServerOnly cmd inp.isDM = false)
    (hdm : Conditions.isForbiddenDMOnly cmd inp.isDM = false)
    (hfail : inp.permLevel < cmd.permission)
    (hreq : permLevels.find? (fun l => l.level = cmd.permission) = some req)
    (husr : permLevels.find? (fun l => l.level = inp.permLevel) = some usr)
    (hval : inp.validationErrors.isSome) :
    (CommandRunner.run permLevels commands store now inp).feedback =
      (if cmd.hidden then [] else [.missingPermission]) ∧
    Feedback.missingArgsSingular ∉ (CommandRunner.run permLevels commands store now inp).feedback ∧
    Feedback.missingArgsPlural ∉ (CommandRunner.run permLevels commands store now inp).feedback ∧
    (CommandRunner.run permLevels commands store now inp).handlerRan = false ∧
    (CommandRunner.run permLevels commands store now inp).store = store := by
  obtain ⟨p, hp⟩ := Option.isSome_iff_exists.mp hpre
  have hmeet : meetsPermissionLevel permLevels cmd inp.permLevel = .denied (some usr) req := by
    unfold meetsPermissionLevel
    rw [husr, hreq, if_pos hfail]
  have hrun : CommandRunner.run permLevels commands store now inp =
      if !cmd.hidden
      then { feedback := [.missingPermission], store := store }
      else { feedback := [], store := store } := by
    unfold CommandRunner.run
    simp only [hbot, hp, hcmd, hnsfw, hso, hdm, hmeet, Bool.false_eq_true, if_false,
      Option.isNone_some, if_true, List.nil_append]
  rw [hrun]
  by_cases hh : cmd.hidden
  · simp [hh]
  · simp [hh]

theorem c6_witness :
    (CommandRunner.run [⟨0, "User", (fun _ => true : Unit → Bool)⟩, ⟨5, "Mod", fun _ => true⟩]
        [{ name := "kick", description := "d", permission := 5 }]
        { timestamps := [("kick", [])] } 0
        { command := some { name := "kick", description := "d", permission := 5 },
          isDM := false, permLevel := 0, validationErrors := some ["f"],
          userId := "u" }).feedback =
      (if ({ name := "kick", description := "d", permission := 5 } : Command).hidden
       then [] else [.missingPermission]) ∧
    Feedback.missingArgsSingular ∉
      (CommandRunner.run [⟨0, "User", (fun _ => true : Unit → Bool)⟩, ⟨5, "Mod", fun _ => true⟩]
        [{ name := "kick", description := "d", permission := 5 }]
        { timestamps := [("kick", [])] } 0
        { command := some { name := "kick", description := "d", permission := 5 },
          isDM := false, permLevel := 0, validationErrors := some ["f"],
          userId := "u" }).feedback ∧
    Feedback.missingArgsPlural ∉
      (CommandRunner.run [⟨0, "User", (fun _ => true : Unit → Bool)⟩, ⟨5, "Mod", fun _ => true⟩]
        [{ name := "kick", description := "d", permission := 5 }]
        { timestamps := [("kick", [])] } 0
        { command := some { name := "kick", description := "d", permission := 5 },
          isDM := false, permLevel := 0, validationErrors := some ["f"],
          userId := "u" }).feedback ∧
    (CommandRunner.run [⟨0, "User", (fun _ => true : Unit → Bool)⟩, ⟨5, "Mod", fun _ => true⟩]
        [{ name := "kick", description := "d", permission := 5 }]
        { timestamps := [("kick", [])] } 0
        { command := some { name := "kick", description := "d", permission := 5 },
          isDM := false, permLevel := 0, validationErrors := some ["f"],
          userId := "u" }).handlerRan = false ∧
    (CommandRunner.run [⟨0, "User", (fun _ => true : Unit → Bool)⟩, ⟨5, "Mod", fun _ => true⟩]
        [{ name := "kick", description := "d", permission := 5 }]
        { timestamps := [("kick", [])] } 0
        { command := some { name := "kick", description := "d", permission := 5 },
          isDM := false, permLevel := 0, validationErrors := some ["f"],
          userId := "u" }).store = { timestamps := [("kick", [])] } :=
  c6_permission_gate_precedes_validation
    [⟨0, "User", (fun _ => true : Unit → Bool)⟩, ⟨5, "Mod", fun _ => true⟩]
    [{ name := "kick", description := "d", permission := 5 }]
    { timestamps := [("kick", [])] } 0
    { command := some { name := "kick", description := "d", permission := 5 },
      isDM := false, permLevel := 0, validationErrors := some ["f"], userId := "u" }
    { name := "kick", description := "d", permission := 5 }
    ⟨5, "Mod", fun _ => true⟩ ⟨0, "User", fun _ => true⟩
    rfl rfl rfl rfl rfl rfl (by decide) rfl rfl rfl

theorem Listener.evaluate_some_invoked (ignored : ListenerIgnoreList) (now : Nat)
    (message : ListenerMsg) (l : Listener) (r : ListenerRet)
    (h : (Listener.evaluate ignored now message l).1 = some r) :
    (Listener.evaluate ignored now message l).2.2 = true := by
  unfold Listener.evaluate at h ⊢
  split_ifs at h ⊢ <;> simp_all

theorem runCat_cons_skip (ignored : ListenerIgnoreList) (now : Nat) (message : ListenerMsg)
    (l : Listener) (rest : List Listener) (h : lengthSkipped message l = true) :
    runListenersInCategory ignored now message (l :: rest) =
      ((runListenersInCategory ignored now message rest).1,
        l :: (runListenersInCategory ignored now message rest).2.1,
        (runListenersInCategory ignored now message rest).2.2) := by
  rcases hres : runListenersInCategory ignored now message rest with ⟨inv, ls, ev⟩
  simp [runListenersInCategory, h, hres]

theorem runCat_cons_continue (ignored : ListenerIgnoreList) (now : Nat) (message : ListenerMsg)
    (l : Listener) (rest : List Listener) (hskip : lengthSkipped message l = false)
    (hres : (Listener.evaluate ignored now message l).1 ≠ some .rTrue) :
    runListenersInCategory ignored now message (l :: rest) =
      ((if (Listener.evaluate ignored now message l).2.2 then [l.id] else []) ++
          (runListenersInCategory ignored now message rest).1,
        (Listener.evaluate ignored now message l).2.1 ::
          (runListenersInCategory ignored now message rest).2.1,
        (if (Listener.evaluate ignored now message l).1 = some .rTrue ∨
            (Listener.evaluate ignored now message l).1 = some .rFalse then [l.id] else []) ++
          (runListenersInCategory ignored now message rest).2.2) := by
  rcases heval : Listener.evaluate ignored now message l with ⟨result, l2, invoked⟩
  rw [heval] at hres
  simp only at hres
  rcases hrest : runListenersInCategory ignored now message rest with ⟨inv, ls, ev⟩
  simp only [runListenersInCategory, hskip, Bool.false_eq_true, if_false, heval, hrest]
  simp [hres]

theorem runCat_cons_stop (ignored : ListenerIgnoreList) (now : Nat) (message : ListenerMsg)
    (l : Listener) (post : List Listener) (hskip : lengthSkipped message l = false)
    (hres : (Listener.evaluate ignored now message l).1 = some .rTrue) :
    runListenersInCategory ignored now message (l :: post) =
      ([l.id], (Listener.evaluate ignored now message l).2.1 :: post, [l.id]) := by
  have hinv := Listener.evaluate_some_invoked ignored now message l .rTrue hres
  rcases heval : Listener.evaluate ignored now message l with ⟨result, l2, invoked⟩
  rw [heval] at hres hinv
  simp only at hres hinv
  simp [runListenersInCategory, hskip, heval, hres, hinv]

theorem runCat_append_no_stop (ignored : ListenerIgnoreList) (now : Nat) (message : ListenerMsg)
    (pre rest : List Listener)
    (h : ∀ x ∈ pre, lengthSkipped message x = true ∨
      (Listener.evaluate ignored now message x).1 ≠ some .rTrue) :
    runListenersInCategory ignored now message (pre ++ rest) =
      ((runListenersInCategory ignored now message pre).1 ++
          (runListenersInCategory ignored now message rest).1,
        (runListenersInCategory ignored now message pre).2.1 ++
          (runListenersInCategory ignored now message rest).2.1,
        (runListenersInCategory ignored now message pre).2.2 ++
          (runListenersInCategory ignored now message rest).2.2) := by
  induction pre with
  | nil => simp [runListenersInCategory]
  | cons x pre ih =>
      have hx := h x (List.mem_cons_self x pre)
      have hih := ih (fun y hy => h y (List.mem_cons_of_mem x hy))
      rcases hx with hskip | hres
      · rw [List.cons_append, runCat_cons_skip ignored now message x (pre ++ rest) hskip,
          runCat_cons_skip ignored now message x pre hskip, hih]
        simp
      · by_cases hskip : lengthSkipped message x = true
        · rw [List.cons_append, runCat_cons_skip ignored now message x (pre ++ rest) hskip,
            runCat_cons_skip ignored now message x pre hskip, hih]
          simp
        · have hskip2 : lengthSkipped message x = false := by
            revert hskip
            cases lengthSkipped message x <;> simp
          rw [List.cons_append,
            runCat_cons_continue ignored now message x (pre ++ rest) hskip2 hres,
            runCat_cons_continue ignored now message x pre hskip2 hres, hih]
          simp [List.append_assoc]

theorem Listener.evaluate_invoked_cooldowns (ignored : ListenerIgnoreList) (now : Nat)
    (message : ListenerMsg) (l : Listener)
    (h : (Listener.evaluate ignored now message l).2.2 = true)
    (hkey : ∀ gid, message.guildId = some gid → ¬("GUILD_" ++ gid = message.authorId)) :
    lookupKV ((Listener.evaluate ignored now message l).2.1).cooldowns message.authorId
      = some (now + l.cooldown * 1000) ∧
    (∀ gid g, message.guildId = some gid → l.globalCooldown = some g →
      lookupKV ((Listener.evaluate ignored now message l).2.1).cooldowns ("GUILD_" ++ gid)
        = some (now + g * 1000)) := by
  unfold Listener.evaluate at h ⊢
  split_ifs at h ⊢ <;> try simp_all
  rcases hg : message.guildId with _ | gid
  · rcases hgc : l.globalCooldown with _ | g
    · simp [hg, hgc, lookupKV_setKV_self]
    · simp [hg, hgc, lookupKV_setKV_self]
  · rcases hgc : l.globalCooldown with _ | g
    · simp [hg, hgc, lookupKV_setKV_self]
    · have hne : "GUILD_" ++ gid ≠ message.authorId := hkey gid hg
      simp [hg, hgc, lookupKV_setKV_self,
        lookupKV_setKV_ne _ _ (fun hcontra => hne hcontra)]

/-- C2, counterexample: two listeners of one category, both of whose
patterns match the message; the first one's handler returns a value other
than the literal `true` (here `undefined`, as most handlers do).  The loop
only breaks on `result === true`, so the second listener is still
evaluated and invoked — the category does *not* stop at the first listener
whose patterns match, refuting the claim at this concrete input. -/
theorem c2_counterexample :
    stringMatch "hello" (ListenerWords.single "hello") = true ∧
    (runListenersInCategory {} 0 { authorId := "u", content := "hello" }
        [{ id := 1, words := .single "hello", cooldown := 1, priority := 0 },
         { id := 2, words := .single "hello", cooldown := 1, priority := 1 }]).1 = [1, 2] := by
  constructor
  · rfl
  · rfl

/-- C2, amended: categories are evaluated in ascending priority order
(the per-category lists are sorted stably by priority); evaluation of a
category stops at the first listener whose patterns match *and whose
handler returns the literal `true`* — a matched listener whose handler
returns anything else is still invoked, sets its cooldown clocks, but the
chain continues past it; on any invocation the per-caller clock and, when
configured and in a guild, the per-guild global clock are set; and each
category is processed by its own independent `runListenersInCategory`
call. -/
theorem c2_priority_chain (ignored : ListenerIgnoreList) (now : Nat) (message : ListenerMsg) :
    (∀ botListeners category,
      (mappedListenersFor botListeners category).Sorted priorityLE) ∧
    (∀ pre l post,
      (∀ x ∈ pre, lengthSkipped message x = true ∨
        (Listener.evaluate ignored now message x).1 ≠ some .rTrue) →
      lengthSkipped message l = false →
      (Listener.evaluate ignored now message l).1 = some .rTrue →
      runListenersInCategory ignored now message (pre ++ l :: post) =
        ((runListenersInCategory ignored now message pre).1 ++ [l.id],
         (runListenersInCategory ignored now message pre).2.1 ++
           (Listener.evaluate ignored now message l).2.1 :: post,
         (runListenersInCategory ignored now message pre).2.2 ++ [l.id])) ∧
    (∀ l, (Listener.evaluate ignored now message l).2.2 = true →
      (∀ gid, message.guildId = some gid → ¬("GUILD_" ++ gid = message.authorId)) →
      lookupKV ((Listener.evaluate ignored now message l).2.1).cooldowns message.authorId
        = some (now + l.cooldown * 1000) ∧
      (∀ gid g, message.guildId = some gid → l.globalCooldown = some g →
        lookupKV ((Listener.evaluate ignored now message l).2.1).cooldowns ("GUILD_" ++ gid)
          = some (now + g * 1000))) ∧
    (∀ entries, runAllListeners ignored now message entries =
      entries.map (fun e => (e.1, runListenersInCategory ignored now message e.2))) := by
  refine ⟨?_, ?_, ?_, ?_⟩
  · intro botListeners category
    exact List.sorted_insertionSort priorityLE _
  · intro pre l post hpre hskip hstop
    rw [runCat_append_no_stop ignored now message pre (l :: post) hpre,
      runCat_cons_stop ignored now message l post hskip hstop]
  · intro l h hkey
    exact Listener.evaluate_invoked_cooldowns ignored now message l h hkey
  · intro entries
    induction entries with
    | nil => rfl
    | cons e rest ih => simp [runAllListeners, ih]

theorem c2_witness :
    runListenersInCategory {} 0 { authorId := "u", content := "hello" }
        ([] ++ { id := 1, words := .single "hello", cooldown := 1, retVal := .rTrue } ::
          [{ id := 2, words := .single "hello", cooldown := 1, priority := 1 }]) =
      ((runListenersInCategory {} 0 { authorId := "u", content := "hello" } []).1 ++ [1],
       (runListenersInCategory {} 0 { authorId := "u", content := "hello" } []).2.1 ++
         (Listener.evaluate {} 0 { authorId := "u", content := "hello" }
           { id := 1, words := .single "hello", cooldown := 1, retVal := .rTrue }).2.1 ::
         [{ id := 2, words := .single "hello", cooldown := 1, priority := 1 }],
       (runListenersInCategory {} 0 { authorId := "u", content := "hello" } []).2.2 ++ [1]) :=
  ((c2_priority_chain {} 0 { authorId := "u", content := "hello" }).2.1)
    [] { id := 1, words := .single "hello", cooldown := 1, retVal := .rTrue }
    [{ id := 2, words := .single "hello", cooldown := 1, priority := 1 }]
    (by intro x hx; cases hx) rfl rfl

theorem lookupKV_eraseKV_ne {β : Type} (l : List (String × β)) {k1 k2 : String}
    (h : k1 ≠ k2) : lookupKV (eraseKV l k1) k2 = lookupKV l k2 := by
  induction l with
  | nil => rfl
  | cons hd tl ih =>
      obtain ⟨ka, va⟩ := hd
      by_cases hk : ka = k1
      · subst hk
        simp [eraseKV, lookupKV, h]
      · simp [eraseKV, hk, lookupKV, ih]

theorem lookupKV_eq_none_of_not_mem {β : Type} (l : List (String × β)) (k : String)
    (h : k ∉ l.map Prod.fst) : lookupKV l k = none := by
  induction l with
  | nil => rfl
  | cons hd tl ih =>
      obtain ⟨ka, va⟩ := hd
      simp only [List.map_cons, List.mem_cons] at h
      push_neg at h
      simp only [lookupKV]
      rw [if_neg (fun hc => h.1 hc.symm)]
      exact ih h.2

theorem lookupKV_eraseKV_setKV {β : Type} (l : List (String × β)) (k : String) (v : β)
    (h : (l.map Prod.fst).Nodup) : lookupKV (eraseKV (setKV l k v) k) k = none := by
  induction l with
  | nil => simp [setKV, eraseKV, lookupKV]
  | cons hd tl ih =>
      obtain ⟨ka, va⟩ := hd
      simp only [List.map_cons, List.nodup_cons] at h
      by_cases hk : ka = k
      · subst hk
        simp only [setKV, if_pos rfl, eraseKV, if_pos rfl]
        exact lookupKV_eq_none_of_not_mem tl ka h.1
      · simp only [setKV, if_neg hk, eraseKV, if_neg hk, lookupKV]
        simp [hk, ih h.2]

theorem ignoreId_no_pending_for_id (s : IgnoreCollection) (id : String)
    (duration now : Nat)
    (hwf : ∀ p ∈ s.pending, ∃ e, lookupKV s.entries p.2.1 = some e ∧ e.timeout = some p.1) :
    ∀ p ∈ (match lookupKV s.entries id with
           | some e =>
               match e.timeout with
               | some tid => { s with pending := s.pending.filter (fun p => p.1 ≠ tid) }
               | none => s
           | none => s : IgnoreCollection).pending, p.2.1 ≠ id := by
  intro p hp hpid
  rcases hl : lookupKV s.entries id with _ | e
  · rw [hl] at hp
    simp only at hp
    obtain ⟨e2, he2, _⟩ := hwf p hp
    rw [hpid, hl] at he2
    cases he2
  · rcases ht : e.timeout with _ | tid
    · rw [hl] at hp
      simp only at hp
      rw [ht] at hp
      simp only at hp
      obtain ⟨e2, he2, he2t⟩ := hwf p hp
      rw [hpid, hl] at he2
      injection he2 with he2
      subst he2
      rw [ht] at he2t
      cases he2t
    · rw [hl] at hp
      simp only at hp
      rw [ht] at hp
      simp only [List.mem_filter] at hp
      obtain ⟨hpmem, hpne⟩ := hp
      obtain ⟨e2, he2, he2t⟩ := hwf p hpmem
      rw [hpid, hl] at he2
      injection he2 with he2
      subst he2
      rw [ht] at he2t
      injection he2t with he2t
      simp [he2t] at hpne

theorem fireTimer_preserves (s : IgnoreCollection) (tid : Nat) (id : String)
    (h : ∀ p ∈ s.pending, p.2.1 ≠ id) :
    lookupKV (s.fireTimer tid).entries id = lookupKV s.entries id ∧
    (∀ p ∈ (s.fireTimer tid).pending, p.2.1 ≠ id) := by
  rcases hf : s.pending.find? (fun p => p.1 = tid) with _ | ⟨t2, target, f⟩
  · unfold IgnoreCollection.fireTimer
    rw [hf]
    exact ⟨rfl, h⟩
  · unfold IgnoreCollection.fireTimer
    rw [hf]
    simp only
    have hmem := List.mem_of_find?_eq_some hf
    have hne : target ≠ id := h ⟨t2, target, f⟩ hmem
    refine ⟨lookupKV_eraseKV_ne s.entries hne, ?_⟩
    intro p hp
    exact h p (List.mem_of_mem_filter hp)

theorem fireAll_preserves (tids : List Nat) : ∀ (s : IgnoreCollection) (id : String),
    (∀ p ∈ s.pending, p.2.1 ≠ id) →
    lookupKV (fireAll s tids).entries id = lookupKV s.entries id := by
  induction tids with
  | nil =>
      intro s id h
      rfl
  | cons t rest ih =>
      intro s id h
      have hstep := fireTimer_preserves s t id h
      show lookupKV (fireAll (s.fireTimer t) rest).entries id = _
      rw [ih (s.fireTimer t) id hstep.2, hstep.1]

theorem ignoreId_entries (s : IgnoreCollection) (id : String) (duration now : Nat) :
    (s.ignoreId id duration now).entries =
      setKV s.entries id
        { start := now, duration := duration,
          timeout := if duration = 0 then none else some s.nextTimer } := by
  unfold IgnoreCollection.ignoreId
  rcases hl : lookupKV s.entries id with _ | e
  · by_cases hd : duration = 0 <;> simp [hl, hd]
  · rcases ht : e.timeout with _ | tid
    · by_cases hd : duration = 0 <;> simp [hl, ht, hd]
    · by_cases hd : duration = 0 <;> simp [hl, ht, hd]

theorem ignoreId_timersFor (s : IgnoreCollection) (id : String) (duration now : Nat)
    (hwf : ∀ p ∈ s.pending, ∃ e, lookupKV s.entries p.2.1 = some e ∧ e.timeout = some p.1) :
    (s.ignoreId id duration now).timersFor id =
      (if duration = 0 then [] else [(s.nextTimer, id, now + duration)]) := by
  have hnp := ignoreId_no_pending_for_id s id duration now hwf
  unfold IgnoreCollection.ignoreId IgnoreCollection.timersFor
  rcases hl : lookupKV s.entries id with _ | e
  · simp only [hl] at hnp ⊢
    by_cases hd : duration = 0
    · rw [if_pos hd, if_pos hd, List.filter_eq_nil_iff]
      intro p hp2
      simp [hnp p hp2]
    · rw [if_neg hd, if_neg hd]
      simp only [List.filter_append]
      rw [List.filter_eq_nil_iff.mpr (fun p hp2 => by simp [hnp p hp2])]
      simp
  · rcases ht : e.timeout with _ | tid
    · simp only [hl, ht] at hnp ⊢
      by_cases hd : duration = 0
      · rw [if_pos hd, if_pos hd, List.filter_eq_nil_iff]
        intro p hp2
        simp [hnp p hp2]
      · rw [if_neg hd, if_neg hd]
        simp only [List.filter_append]
        rw [List.filter_eq_nil_iff.mpr (fun p hp2 => by simp [hnp p hp2])]
        simp
    · simp only [hl, ht] at hnp ⊢
      by_cases hd : duration = 0
      · rw [if_pos hd, if_pos hd, List.filter_eq_nil_iff]
        intro p hp2
        simp [hnp p hp2]
      · rw [if_neg hd, if_neg hd]
        simp only [List.filter_append]
        rw [List.filter_eq_nil_iff.mpr (fun p hp2 => by simp [hnp p hp2])]
        simp

/-- C9: re-ignoring an id stores a fresh window with the new start time and
duration and cancels any previously scheduled expiry, so the only pending
expiry for the id afterwards is the newest window's (none at all for
duration 0); a duration-0 window has no expiry and survives any sequence
of timer firings until an explicit un-ignore deletes it; and while an id
is ignored, listener evaluation for its guild or channel never invokes a
handler. -/
theorem c9_ignore_window_lifecycle (s : IgnoreCollection) (id : String) (duration now : Nat) :
    (lookupKV (s.ignoreId id duration now).entries id =
      some { start := now, duration := duration,
             timeout := if duration = 0 then none else some s.nextTimer }) ∧
    ((∀ p ∈ s.pending, ∃ e, lookupKV s.entries p.2.1 = some e ∧ e.timeout = some p.1) →
      (s.ignoreId id duration now).timersFor id =
        (if duration = 0 then [] else [(s.nextTimer, id, now + duration)])) ∧
    ((∀ p ∈ s.pending, ∃ e, lookupKV s.entries p.2.1 = some e ∧ e.timeout = some p.1) →
      duration = 0 →
      ∀ tids, lookupKV (fireAll (s.ignoreId id duration now) tids).entries id =
        some { start := now, duration := 0, timeout := none }) ∧
    ((s.entries.map Prod.fst).Nodup →
      lookupKV ((s.ignoreId id duration now).listenId id).entries id = none) ∧
    (∀ (ignored : ListenerIgnoreList) (now2 : Nat) (message : ListenerMsg) (l : Listener),
      ((∃ gid, message.guildId = some gid ∧ (lookupKV ignored.guilds.entries gid).isSome) ∨
        (lookupKV ignored.channels.entries message.channelId).isSome) →
      (Listener.evaluate ignored now2 message l).2.2 = false) := by
  refine ⟨?_, ?_, ?_, ?_, ?_⟩
  · rw [ignoreId_entries, lookupKV_setKV_self]
  · intro hwf
    exact ignoreId_timersFor s id duration now hwf
  · intro hwf hd tids
    subst hd
    have htf0 : (s.ignoreId id 0 now).timersFor id = [] := by
      simpa using ignoreId_timersFor s id 0 now hwf
    have hpend : ∀ p ∈ (s.ignoreId id 0 now).pending, p.2.1 ≠ id := by
      intro p hp hpid
      have hmem : p ∈ (s.ignoreId id 0 now).timersFor id := by
        unfold IgnoreCollection.timersFor
        exact List.mem_filter.mpr ⟨hp, by simp [hpid]⟩
      rw [htf0] at hmem
      cases hmem
    rw [fireAll_preserves tids (s.ignoreId id 0 now) id hpend, ignoreId_entries,
      lookupKV_setKV_self]
    simp
  · intro hnd
    have hent := ignoreId_entries s id duration now
    unfold IgnoreCollection.listenId
    rw [hent, lookupKV_setKV_self]
    simp only
    by_cases hd : duration = 0
    · rw [if_pos hd]
      simp only
      rw [hent]
      exact lookupKV_eraseKV_setKV s.entries id _ hnd
    · rw [if_neg hd]
      simp only
      exact lookupKV_eraseKV_setKV s.entries id _ hnd
  · intro ignored now2 message l h
    rcases h with ⟨gid, hg, hi⟩ | hi
    · unfold Listener.evaluate
      simp only [hg]
      split_ifs <;> simp_all
    · unfold Listener.evaluate
      split_ifs <;> simp_all

theorem c9_witness :
    (lookupKV ((IgnoreCollection.ignoreId
        { entries := [("chan1", ⟨0, 5, some 0⟩)], pending := [(0, "chan1", 5)], nextTimer := 1 }
        "chan1" 7 3)).entries "chan1" = some ⟨3, 7, some 1⟩) ∧
    ((IgnoreCollection.ignoreId
        { entries := [("chan1", ⟨0, 5, some 0⟩)], pending := [(0, "chan1", 5)], nextTimer := 1 }
        "chan1" 7 3).timersFor "chan1" = [(1, "chan1", 10)]) :=
  ⟨(c9_ignore_window_lifecycle
      { entries := [("chan1", ⟨0, 5, some 0⟩)], pending := [(0, "chan1", 5)], nextTimer := 1 }
      "chan1" 7 3).1,
   (c9_ignore_window_lifecycle
      { entries := [("chan1", ⟨0, 5, some 0⟩)], pending := [(0, "chan1", 5)], nextTimer := 1 }
      "chan1" 7 3).2.1
     (by
       intro p hp
       simp only [List.mem_singleton] at hp
       subst hp
       exact ⟨⟨0, 5, some 0⟩, rfl, rfl⟩)⟩

theorem matchToken_eq_some (tok : List Char) :
    ∀ (cs rest : List Char), matchToken tok cs = some rest ↔ cs = tok ++ rest := by
  induction tok with
  | nil =>
      intro cs rest
      simp [matchToken]
  | cons t ts ih =>
      intro cs rest
      cases cs with
      | nil => simp [matchToken]
      | cons c cs2 =>
          by_cases h : c = t
          · subst h
            simp [matchToken, ih]
          · simp [matchToken, h]

theorem matchesHere_iff (tok cs : List Char) :
    matchesHere tok cs = true ↔
      ∃ post, cs = tok ++ post ∧
        (post = [] ∨ ∃ c, post.head? = some c ∧ jsWhitespace c = true) := by
  unfold matchesHere
  rcases hm : matchToken tok cs with _ | rest
  · simp only [Bool.false_eq_true, false_iff]
    rintro ⟨post, hpost, _⟩
    rw [(matchToken_eq_some tok cs post).mpr hpost] at hm
    cases hm
  · have hcs := (matchToken_eq_some tok cs rest).mp hm
    subst hcs
    simp only
    constructor
    · intro hb
      refine ⟨rest, rfl, ?_⟩
      cases rest with
      | nil => exact Or.inl rfl
      | cons r rs =>
          right
          exact ⟨r, rfl, by simpa [boundaryAfter] using hb⟩
    · rintro ⟨post, hpost, hb⟩
      have hpr : rest = post := by
        have := hpost
        rwa [List.append_right_inj] at this
      subst hpr
      rcases hb with rfl | ⟨c, hc, hws⟩
      · rfl
      · cases rest with
        | nil => cases hc
        | cons r rs =>
            injection hc with hc
            subst hc
            simpa [boundaryAfter] using hws

theorem boundaryScan_iff (tok : List Char) :
    ∀ (cs : List Char) (b : Bool),
    boundaryScan tok b cs = true ↔
      ((b = true ∧ matchesHere tok cs = true) ∨
        ∃ pre c rest, cs = pre ++ c :: rest ∧ jsWhitespace c = true ∧
          matchesHere tok rest = true)
  | [], b => by
      simp only [boundaryScan, Bool.and_eq_true]
      constructor
      · intro h
        exact Or.inl h
      · rintro (h | ⟨pre, c, rest, habs, _, _⟩)
        · exact h
        · exact absurd habs (by simp)
  | c :: rest, b => by
      simp only [boundaryScan, Bool.or_eq_true, Bool.and_eq_true]
      rw [boundaryScan_iff tok rest (jsWhitespace c)]
      constructor
      · rintro (⟨hb, hm⟩ | ⟨hws, hm⟩ | ⟨pre, d, r2, heq, hws, hm⟩)
        · exact Or.inl ⟨hb, hm⟩
        · exact Or.inr ⟨[], c, rest, rfl, hws, hm⟩
        · refine Or.inr ⟨c :: pre, d, r2, ?_, hws, hm⟩
          rw [heq]
          rfl
      · rintro (⟨hb, hm⟩ | ⟨pre, d, r2, heq, hws, hm⟩)
        · exact Or.inl ⟨hb, hm⟩
        · cases pre with
          | nil =>
              injection heq with h1 h2
              subst h1
              subst h2
              exact Or.inr (Or.inl ⟨hws, hm⟩)
          | cons p ps =>
              injection heq with h1 h2
              subst h1
              exact Or.inr (Or.inr ⟨ps, d, r2, h2, hws, hm⟩)

theorem boundaryMatch_iff (tok content : List Char) :
    boundaryMatch tok content = true ↔ BoundaryOcc tok content := by
  unfold boundaryMatch BoundaryOcc
  rw [boundaryScan_iff]
  constructor
  · rintro (⟨_, hm⟩ | ⟨pre, c, rest, heq, hws, hm⟩)
    · obtain ⟨post, hpost, hb⟩ := (matchesHere_iff tok content).mp hm
      exact ⟨[], post, by simpa using hpost, Or.inl rfl, hb⟩
    · obtain ⟨post, hpost, hb⟩ := (matchesHere_iff tok rest).mp hm
      refine ⟨pre ++ [c], post, ?_, ?_, hb⟩
      · rw [heq, hpost]
        simp
      · right
        exact ⟨c, by simp, hws⟩
  · rintro ⟨pre, post, heq, hpre, hpost⟩
    rcases hpre with rfl | ⟨c, hc, hws⟩
    · left
      refine ⟨rfl, (matchesHere_iff tok content).mpr ⟨post, by simpa using heq, hpost⟩⟩
    · right
      obtain ⟨pre2, hpre2⟩ := List.getLast?_eq_some_iff.mp hc
      subst hpre2
      refine ⟨pre2, c, tok ++ post, ?_, hws,
        (matchesHere_iff tok (tok ++ post)).mpr ⟨post, rfl, hpost⟩⟩
      rw [heq]
      simp

/-- C8: `stringMatch` matches only at word/phrase boundaries of the
normalized content: a single-token pattern matches exactly when one of its
substituted alternatives (the token itself, unless it names a shared
vocabulary class) occurs delimited by whitespace or the string ends; an
array pattern matches exactly when every token independently
boundary-matches; in particular `yes` matches in `yes please` and not in
`yesterday`. -/
theorem c8_stringMatch_word_boundaries :
    (stringMatch "yes please" (.single "yes") = true ∧
     stringMatch "yesterday" (.single "yes") = false) ∧
    (∀ (content w : String),
      stringMatch content (.single w) = true ↔
        ∃ a ∈ tokenAlternatives w, BoundaryOcc a.toList (normalizeContent content.toList)) ∧
    (∀ (content : String) (ws : List String),
      stringMatch content (.many ws) = true ↔
        ∀ w ∈ ws, ∃ a ∈ tokenAlternatives w,
          BoundaryOcc a.toList (normalizeContent content.toList)) := by
  refine ⟨⟨rfl, rfl⟩, ?_, ?_⟩
  · intro content w
    unfold stringMatch tokenMatches
    simp only [List.any_eq_true]
    constructor
    · rintro ⟨a, ha, hb⟩
      exact ⟨a, ha, (boundaryMatch_iff _ _).mp hb⟩
    · rintro ⟨a, ha, hb⟩
      exact ⟨a, ha, (boundaryMatch_iff _ _).mpr hb⟩
  · intro content ws
    unfold stringMatch tokenMatches
    simp only [List.all_eq_true, List.any_eq_true]
    constructor
    · intro h w hw
      obtain ⟨a, ha, hb⟩ := h w hw
      exact ⟨a, ha, (boundaryMatch_iff _ _).mp hb⟩
    · intro h w hw
      obtain ⟨a, ha, hb⟩ := h w hw
      exact ⟨a, ha, (boundaryMatch_iff _ _).mpr hb⟩

theorem c8_witness :
    ∃ a ∈ tokenAlternatives "yes",
      BoundaryOcc a.toList (normalizeContent "yes please".toList) :=
  (c8_stringMatch_word_boundaries.2.1 "yes please" "yes").mp
    c8_stringMatch_word_boundaries.1.1

theorem char_toNat_ofNat (n : Nat) (h : n < 55296) : (Char.ofNat n).toNat = n := by
  unfold Char.ofNat
  rw [dif_pos (Or.inl h)]
  rfl

theorem jsWhitespace_toLower (c : Char) : jsWhitespace (Char.toLower c) = jsWhitespace c := by
  simp only [Char.toLower]
  by_cases h : c.toNat ≥ 65 ∧ c.toNat ≤ 90
  · rw [if_pos h]
    have hl : jsWhitespace (Char.ofNat (c.toNat + 32)) = false := by
      unfold jsWhitespace
      rw [char_toNat_ofNat _ (by omega)]
      simp only [Bool.or_eq_false_iff, decide_eq_false_iff_not]
      omega
    have hr : jsWhitespace c = false := by
      unfold jsWhitespace
      simp only [Bool.or_eq_false_iff, decide_eq_false_iff_not]
      omega
    rw [hl, hr]
  · rw [if_neg h]

theorem toLower_not_upper (c : Char) :
    ¬(65 ≤ (Char.toLower c).toNat ∧ (Char.toLower c).toNat ≤ 90) := by
  simp only [Char.toLower]
  by_cases h : c.toNat ≥ 65 ∧ c.toNat ≤ 90
  · rw [if_pos h]
    rw [char_toNat_ofNat _ (by omega)]
    omega
  · rw [if_neg h]
    exact h

theorem mem_collapseAux (ch : Char) :
    ∀ (l : List Char) (b : Bool), ch ∈ collapseAux b l → ch = ' ' ∨ ch ∈ l := by
  intro l
  induction l with
  | nil =>
      intro b h
      simp [collapseAux] at h
  | cons c rest ih =>
      intro b h
      simp only [collapseAux] at h
      by_cases h1 : b && jsWhitespace c
      · rw [if_pos h1] at h
        rcases ih true h with h2 | h2
        · exact Or.inl h2
        · exact Or.inr (List.mem_cons_of_mem c h2)
      · rw [if_neg h1] at h
        by_cases h2 : jsWhitespace c
        · rw [if_pos h2] at h
          cases rest with
          | nil =>
              simp only [List.mem_singleton] at h
              subst h
              exact Or.inr (List.mem_cons_self ch [])
          | cons d rest2 =>
              simp only at h
              by_cases h3 : jsWhitespace d
              · rw [if_pos h3] at h
                rcases List.mem_cons.mp h with h4 | h4
                · exact Or.inl h4
                · rcases ih true h4 with h5 | h5
                  · exact Or.inl h5
                  · exact Or.inr (List.mem_cons_of_mem c h5)
              · rw [if_neg h3] at h
                rcases List.mem_cons.mp h with h4 | h4
                · subst h4
                  exact Or.inr (List.mem_cons_self ch (d :: rest2))
                · rcases ih false h4 with h5 | h5
                  · exact Or.inl h5
                  · exact Or.inr (List.mem_cons_of_mem c h5)
        · rw [if_neg h2] at h
          rcases List.mem_cons.mp h with h4 | h4
          · subst h4
            exact Or.inr (List.mem_cons_self ch rest)
          · rcases ih false h4 with h5 | h5
            · exact Or.inl h5
            · exact Or.inr (List.mem_cons_of_mem c h5)

theorem mem_lowercase_not_upper (x : List Char) (ch : Char) (h : ch ∈ lowercase x) :
    ¬(65 ≤ ch.toNat ∧ ch.toNat ≤ 90) := by
  obtain ⟨c, _, rfl⟩ := List.mem_map.mp h
  exact toLower_not_upper c

theorem prefixChars_not_upper (x pl : List Char)
    (h : List.isPrefixOf pl (collapseWhitespace (lowercase (trimWhitespace x))) = true) :
    ∀ ch ∈ pl, ¬(65 ≤ ch.toNat ∧ ch.toNat ≤ 90) := by
  intro ch hch
  have hpre := List.isPrefixOf_iff_prefix.mp h
  have hmem := hpre.subset hch
  rcases mem_collapseAux ch _ false hmem with h1 | h1
  · subst h1
    decide
  · exact mem_lowercase_not_upper _ ch h1

theorem lowercase_trimWhitespace (x : List Char) :
    lowercase (trimWhitespace x) = trimWhitespace (lowercase x) := by
  have hcomp : (jsWhitespace ∘ Char.toLower) = jsWhitespace := funext jsWhitespace_toLower
  simp only [lowercase, trimWhitespace, List.dropWhile_map, hcomp]
  rw [List.reverse_map, List.dropWhile_map]
  simp only [hcomp]
  exact List.map_reverse _ _

/-- C10: default prefix resolution lowercases (and trims/collapses) the
message content before the comparison, so matching is case-insensitive in
the message — `!PING` resolves the prefix `!` — while a configured default
or per-guild prefix containing an uppercase ASCII letter can never be
resolved for any message, because the normalized content contains no
uppercase letters. -/
theorem c10_validatePrefix_casing :
    ( validatePrefix "!PING" "!" none none = some "!") ∧
    (∀ (c1 c2 dp : String) (gp : Option (List (String × String))) (gid : Option String),
      c1.toList.map Char.toLower = c2.toList.map Char.toLower →
       validatePrefix c1 dp gp gid = validatePrefix c2 dp gp gid) ∧
    (∀ (content dp : String) (gp : Option (List (String × String))) (gid : Option String)
        (p : String), validatePrefix content dp gp gid = some p →
      ∀ ch ∈ p.toList, ¬(65 ≤ ch.toNat ∧ ch.toNat ≤ 90)) := by
  refine ⟨rfl, ?_, ?_⟩
  · intro c1 c2 dp gp gid hmap
    have hnorm : collapseWhitespace (lowercase (trimWhitespace c1.toList)) =
        collapseWhitespace (lowercase (trimWhitespace c2.toList)) := by
      rw [lowercase_trimWhitespace, lowercase_trimWhitespace]
      unfold lowercase
      rw [hmap]
    unfold validatePrefix
    rw [hnorm]
  · intro content dp gp gid p h
    unfold validatePrefix at h
    cases gp with
    | none =>
        simp only at h
        by_cases h1 : List.isPrefixOf dp.toList
            (collapseWhitespace (lowercase (trimWhitespace content.toList))) = true
        · rw [if_pos h1] at h
          obtain rfl : dp = p := by
            injection h with h2
            try exact h2
          exact prefixChars_not_upper content.toList _ h1
        · rw [if_neg h1] at h
          cases h
    | some m =>
        cases gid with
        | none =>
            replace h : (if List.isPrefixOf dp.toList
                (collapseWhitespace (lowercase (trimWhitespace content.toList))) = true
                then some dp else none) = some p := h
            by_cases h1 : List.isPrefixOf dp.toList
                (collapseWhitespace (lowercase (trimWhitespace content.toList))) = true
            · rw [if_pos h1] at h
              obtain rfl : dp = p := by
                injection h with h2
                try exact h2
              exact prefixChars_not_upper content.toList _ h1
            · rw [if_neg h1] at h
              cases h
        | some g =>
            rcases hq : lookupKV m g with _ | q
            · simp only [hq] at h
              replace h : (if List.isPrefixOf dp.toList
                  (collapseWhitespace (lowercase (trimWhitespace content.toList))) = true
                  then some dp else none) = some p := h
              by_cases h1 : List.isPrefixOf dp.toList
                  (collapseWhitespace (lowercase (trimWhitespace content.toList))) = true
              · rw [if_pos h1] at h
                obtain rfl : dp = p := by
                  injection h with h2
                  try exact h2
                exact prefixChars_not_upper content.toList _ h1
              · rw [if_neg h1] at h
                cases h
            · simp only [hq] at h
              by_cases hqd : q = dp
              · rw [if_pos hqd] at h
                replace h : (if List.isPrefixOf dp.toList
                    (collapseWhitespace (lowercase (trimWhitespace content.toList))) = true
                    then some dp else none) = some p := h
                by_cases h1 : List.isPrefixOf dp.toList
                    (collapseWhitespace (lowercase (trimWhitespace content.toList))) = true
                · rw [if_pos h1] at h
                  obtain rfl : dp = p := by
                    injection h with h2
                    try exact h2
                  exact prefixChars_not_upper content.toList _ h1
                · rw [if_neg h1] at h
                  cases h
              · rw [if_neg hqd] at h
                by_cases hqe : q.isEmpty = true
                · simp only [hqe, Bool.not_true, Bool.false_and, Bool.not_false, Bool.true_and,
                    Bool.false_eq_true, if_false, Option.getD_some] at h
                  by_cases h1 : List.isPrefixOf dp.toList
                      (collapseWhitespace (lowercase (trimWhitespace content.toList))) = true
                  · rw [if_pos h1] at h
                    obtain rfl : dp = p := by
                      injection h with h2
                      try exact h2
                    exact prefixChars_not_upper content.toList _ h1
                  · rw [if_neg h1] at h
                    cases h
                · have hqe2 : q.isEmpty = false := by
                    revert hqe
                    cases q.isEmpty <;> simp
                  simp only [hqe2, Bool.not_false, Bool.true_and, Bool.not_true, Bool.false_and,
                    Bool.false_eq_true, if_false, Option.getD_some] at h
                  by_cases h1 : List.isPrefixOf dp.toList
                      (collapseWhitespace (lowercase (trimWhitespace content.toList))) = true
                  · rw [if_pos h1] at h
                    cases h
                  · rw [if_neg h1] at h
                    by_cases h2 : List.isPrefixOf q.toList
                        (collapseWhitespace (lowercase (trimWhitespace content.toList))) = true
                    · rw [if_pos h2] at h
                      obtain rfl : q = p := by
                        injection h with h3
                        try exact h3
                      exact prefixChars_not_upper content.toList _ h2
                    · rw [if_neg h2] at h
                      cases h

theorem c10_witness :
    ( validatePrefix "!Ping" "!" none none = validatePrefix "!ping" "!" none none) ∧
    (∀ ch ∈ "!".toList, ¬(65 ≤ ch.toNat ∧ ch.toNat ≤ 90)) :=
  ⟨c10_validatePrefix_casing.2.1 "!Ping" "!ping" "!" none none (by decide),
   c10_validatePrefix_casing.2.2 "!PING" "!" none none "!" rfl⟩
